import Mathlib

/-!
Verification of a scope-bound memoization mechanism (`ctx_cached_property` /
`under_ctx`).

The program attaches a lazily computed attribute to an object.  A context
manager `under_ctx` installs a fresh empty cache dictionary into a
flow-local variable `cache_holder`; the descriptor's `__get__` consults that
dictionary (keyed by instance identity and function identity) to compute the
value at most once per scope, and falls back to a warned, uncached direct
computation when no scope is active.

Shallow embedding conventions:
* Python object identity (`id(instance)`, the identity of the wrapped
  function, the identity of each cache dictionary) is modelled by `Nat`.
* The mutable heap of live cache dictionaries is an association list
  `stores : List (Nat × CacheStore V)`; the `ContextVar` `cache_holder`
  is `slot : Option Nat`, naming the currently installed store, and
  `nextId` issues fresh identities.
* The wrapped computation may mutate the instance's state `σ` and may
  raise (`Except ε`), so it is `σ → (Except ε V) × σ`.
* `__get__` is the function `ctx_cached_property.get`; its observable
  effects (result or raised error, updated instance, updated context,
  printed warnings, whether the wrapped computation was invoked) are
  collected in `GetOut`.
* Whole-program behaviour (sequencing, nested `with under_ctx()` blocks,
  raised errors) is a small command language `Cmd` with interpreter `exec`.
-/

namespace CtxCache

/-- The contents of one cache dictionary (a `{}` created by `under_ctx`):
a mapping from cache-key strings to cached values. -/
abbrev CacheStore (V : Type) := List (String × V)

/-- Dictionary lookup, `cache[cache_key]` / `cache_key in cache`. -/
def storeLookup {V : Type} : CacheStore V → String → Option V
  | [], _ => none
  | (k, v) :: rest, key => if k = key then some v else storeLookup rest key

/-- Association-list lookup by identity. -/
def assocFind? {α : Type} : List (Nat × α) → Nat → Option α
  | [], _ => none
  | (k, a) :: rest, key => if k = key then some a else assocFind? rest key

/-- Association-list update by identity (replace the first binding, or
append a new one). -/
def assocSet {α : Type} : List (Nat × α) → Nat → α → List (Nat × α)
  | [], key, a => [(key, a)]
  | (k, a0) :: rest, key, a =>
    if k = key then (key, a) :: rest else (k, a0) :: assocSet rest key a

/-- The ambient context of one execution flow: the `cache_holder`
`ContextVar` (`slot`, naming the currently installed store, if any), the
heap of live cache dictionaries (`stores`), and a fresh-identity counter
(`nextId`). -/
structure Ctx (V : Type) where
  slot : Option Nat
  stores : List (Nat × CacheStore V)
  nextId : Nat

/-- The store object currently bound to identity `sid`. -/
def Ctx.getStore {V : Type} (c : Ctx V) (sid : Nat) : CacheStore V :=
  (assocFind? c.stores sid).getD []

/-- Mutate the store object bound to identity `sid`. -/
def Ctx.putStore {V : Type} (c : Ctx V) (sid : Nat) (st : CacheStore V) : Ctx V :=
  { c with stores := assocSet c.stores sid st }

/-- Identity-heap well-formedness: every live store identity, and the
installed identity if any, is below the fresh-identity counter. -/
def Ctx.WF {V : Type} (c : Ctx V) : Prop :=
  (∀ q ∈ c.stores, q.1 < c.nextId) ∧ ∀ sid ∈ c.slot, sid < c.nextId

/-- The descriptor: wraps the computation `func`; `funcId` is the identity
of the wrapped function object (rendered into cache keys and warnings). -/
structure ctx_cached_property (σ V ε : Type) where
  funcId : Nat
  func : σ → (Except ε V) × σ

/-- An instance of the owning class: its identity `id(instance)` and its
mutable state. -/
structure Inst (σ : Type) where
  objId : Nat
  state : σ

/-- `calc_cache_key`: the f-string `"{id(instance)} {self._func}"`. -/
def calc_cache_key {σ V ε : Type} (p : ctx_cached_property σ V ε)
    (inst : Inst σ) : String :=
  Nat.repr inst.objId ++ " " ++ Nat.repr p.funcId

/-- The warning printed when no cache is active. -/
def warnMsg (fid : Nat) : String :=
  "warning: cache does not work for " ++ Nat.repr fid ++ " outside context"

/-- The value produced by a `__get__` call: the descriptor itself (class
access), a computed/cached value, or a raised error. -/
inductive GetRes (σ V ε : Type) where
  | asSelf (p : ctx_cached_property σ V ε)
  | value (v : V)
  | raised (e : ε)

/-- All observable effects of one `__get__` call: result, instance after
the call (when one was supplied), ambient context after the call, warnings
printed, and whether the wrapped computation was invoked. -/
structure GetOut (σ V ε : Type) where
  res : GetRes σ V ε
  inst : Option (Inst σ)
  ctx : Ctx V
  warns : List String
  fired : Bool

/-- `ctx_cached_property.__get__`. -/
def ctx_cached_property.get {σ V ε : Type} (p : ctx_cached_property σ V ε)
    (inst? : Option (Inst σ)) (c : Ctx V) : GetOut σ V ε :=
  match inst? with
  | none => ⟨.asSelf p, none, c, [], false⟩
  | some inst =>
    match c.slot with
    | none =>
      match p.func inst.state with
      | (.ok v, s2) => ⟨.value v, some ⟨inst.objId, s2⟩, c, [warnMsg p.funcId], true⟩
      | (.error e, s2) => ⟨.raised e, some ⟨inst.objId, s2⟩, c, [warnMsg p.funcId], true⟩
    | some sid =>
      let store := c.getStore sid
      let key := calc_cache_key p inst
      match storeLookup store key with
      | some v => ⟨.value v, some inst, c, [], false⟩
      | none =>
        match p.func inst.state with
        | (.ok v, s2) =>
          ⟨.value v, some ⟨inst.objId, s2⟩, c.putStore sid ((key, v) :: store), [], true⟩
        | (.error e, s2) => ⟨.raised e, some ⟨inst.objId, s2⟩, c, [], true⟩

/-- Whole-program state: the ambient context, the heap of instances of the
owning class, and three observation traces (warnings printed, one entry per
invocation of a wrapped computation, and each value an attribute read
produced). -/
structure WState (σ V ε : Type) where
  ctx : Ctx V
  insts : List (Nat × σ)
  warns : List String
  log : List (Nat × Nat)
  vals : List V

/-- Entry half of `under_ctx`: `cache_holder.set({})` — create a fresh
empty dictionary and install it. -/
def scopeEnter {σ V ε : Type} (s : WState σ V ε) : WState σ V ε :=
  { s with
    ctx :=
      { slot := some s.ctx.nextId
        stores := (s.ctx.nextId, ([] : CacheStore V)) :: s.ctx.stores
        nextId := s.ctx.nextId + 1 } }

/-- `under_ctx`: run `body` with a fresh empty store installed; the
`try/finally` guarantees `cache_holder.reset(token)` on every exit path,
and the body's outcome (normal or raised) is then propagated. -/
def under_ctx {σ V ε α : Type}
    (body : WState σ V ε → Option α × WState σ V ε) (s : WState σ V ε) :
    Option α × WState σ V ε :=
  let token := s.ctx.slot
  let r := body (scopeEnter s)
  (r.1, { r.2 with ctx := { r.2.ctx with slot := token } })

/-- Client programs: skip, raise, sequence, read an attribute on an
instance, or run a block inside `with under_ctx()`. -/
inductive Cmd (σ V ε : Type) where
  | skip
  | throwE (e : ε)
  | seq (a b : Cmd σ V ε)
  | read (p : ctx_cached_property σ V ε) (objId : Nat)
  | scope (body : Cmd σ V ε)

/-- Interpreter: `none` is normal completion, `some e` a propagating
error. -/
def exec {σ V ε : Type} : Cmd σ V ε → WState σ V ε → Option ε × WState σ V ε
  | .skip, s => (none, s)
  | .throwE e, s => (some e, s)
  | .seq a b, s =>
    match exec a s with
    | (none, s1) => exec b s1
    | (some e, s1) => (some e, s1)
  | .read p objId, s =>
    match assocFind? s.insts objId with
    | none => (none, s)
    | some st =>
      let o := p.get (some ⟨objId, st⟩) s.ctx
      let insts2 := match o.inst with
        | some i2 => assocSet s.insts objId i2.state
        | none => s.insts
      let s1 : WState σ V ε :=
        { ctx := o.ctx
          insts := insts2
          warns := s.warns ++ o.warns
          log := s.log ++ (if o.fired then [(p.funcId, objId)] else [])
          vals := s.vals ++ (match o.res with | .value v => [v] | _ => []) }
      match o.res with
      | .raised e => (some e, s1)
      | _ => (none, s1)
  | .scope body, s =>
    let token := s.ctx.slot
    let r := exec body (scopeEnter s)
    (r.1, { r.2 with ctx := { r.2.ctx with slot := token } })

/-- The `.scope` case of the interpreter is exactly `under_ctx` around the
body's interpretation. -/
theorem exec_scope_eq {σ V ε : Type} (body : Cmd σ V ε) (s : WState σ V ε) :
    exec (Cmd.scope body) s = under_ctx (exec body) s := rfl

/-! ### Association-list and store lemmas -/

theorem assocFind?_set_self {α : Type} (l : List (Nat × α)) (k : Nat) (a : α) :
    assocFind? (assocSet l k a) k = some a := by
  induction l with
  | nil => simp [assocSet, assocFind?]
  | cons q rest ih =>
    by_cases h : q.1 = k
    · simp [assocSet, h, assocFind?]
    · simpa [assocSet, h, assocFind?] using ih

theorem assocFind?_set_ne {α : Type} (l : List (Nat × α)) (k k' : Nat) (a : α)
    (hne : k' ≠ k) : assocFind? (assocSet l k a) k' = assocFind? l k' := by
  have hkk : ¬ k = k' := fun h2 => hne h2.symm
  induction l with
  | nil => simp [assocSet, assocFind?, hkk]
  | cons q rest ih =>
    obtain ⟨k0, a0⟩ := q
    by_cases h : k0 = k
    · subst h
      simp [assocSet, assocFind?, hkk]
    · simp only [assocSet, h, if_false, assocFind?]
      by_cases h2 : k0 = k'
      · simp [h2]
      · simp [h2, ih]

theorem assocSet_keys_sub {α : Type} (l : List (Nat × α)) (k : Nat) (a : α) :
    ∀ q ∈ assocSet l k a, q.1 = k ∨ q ∈ l := by
  induction l with
  | nil => simp [assocSet]
  | cons q0 rest ih =>
    intro q hq
    obtain ⟨k0, a0⟩ := q0
    by_cases h : k0 = k
    · subst h
      simp only [assocSet, if_true] at hq
      rw [List.mem_cons] at hq
      rcases hq with h1 | h1
      · exact Or.inl (by simp [h1])
      · exact Or.inr (List.mem_cons_of_mem _ h1)
    · simp only [assocSet, h, if_false] at hq
      rw [List.mem_cons] at hq
      rcases hq with h1 | h1
      · exact Or.inr (by simp [h1])
      · rcases ih q h1 with h2 | h2
        · exact Or.inl h2
        · exact Or.inr (List.mem_cons_of_mem _ h2)

theorem Ctx.getStore_putStore_self {V : Type} (c : Ctx V) (sid : Nat)
    (st : CacheStore V) : (c.putStore sid st).getStore sid = st := by
  simp [Ctx.getStore, Ctx.putStore, assocFind?_set_self]

theorem Ctx.getStore_putStore_ne {V : Type} (c : Ctx V) (sid sid' : Nat)
    (st : CacheStore V) (h : sid' ≠ sid) :
    (c.putStore sid st).getStore sid' = c.getStore sid' := by
  simp [Ctx.getStore, Ctx.putStore, assocFind?_set_ne _ _ _ _ h]

theorem storeLookup_cons_self {V : Type} (st : CacheStore V) (k : String) (v : V) :
    storeLookup ((k, v) :: st) k = some v := by
  simp [storeLookup]

theorem storeLookup_cons_ne {V : Type} (st : CacheStore V) (k k' : String) (v : V)
    (h : k ≠ k') : storeLookup ((k, v) :: st) k' = storeLookup st k' := by
  simp [storeLookup, h]

/-! ### Frame lemmas for a single `__get__` call -/

theorem get_slot_eq {σ V ε : Type} (p : ctx_cached_property σ V ε)
    (inst? : Option (Inst σ)) (c : Ctx V) :
    (p.get inst? c).ctx.slot = c.slot := by
  unfold ctx_cached_property.get
  cases inst? with
  | none => rfl
  | some inst =>
    cases hs : c.slot with
    | none =>
      cases hf : p.func inst.state with
      | mk r s2 => cases r <;> simp [hf, hs]
    | some sid =>
      cases hl : storeLookup (c.getStore sid) (calc_cache_key p inst) with
      | none =>
        cases hf : p.func inst.state with
        | mk r s2 => cases r <;> simp [hl, hf, hs, Ctx.putStore]
      | some v => simp [hl, hs]

theorem get_nextId_eq {σ V ε : Type} (p : ctx_cached_property σ V ε)
    (inst? : Option (Inst σ)) (c : Ctx V) :
    (p.get inst? c).ctx.nextId = c.nextId := by
  unfold ctx_cached_property.get
  cases inst? with
  | none => rfl
  | some inst =>
    cases hs : c.slot with
    | none =>
      cases hf : p.func inst.state with
      | mk r s2 => cases r <;> simp [hf, hs]
    | some sid =>
      cases hl : storeLookup (c.getStore sid) (calc_cache_key p inst) with
      | none =>
        cases hf : p.func inst.state with
        | mk r s2 => cases r <;> simp [hl, hf, hs, Ctx.putStore]
      | some v => simp [hl, hs]

theorem get_store_frame {σ V ε : Type} (p : ctx_cached_property σ V ε)
    (inst? : Option (Inst σ)) (c : Ctx V) (sid : Nat)
    (h : c.slot ≠ some sid) : (p.get inst? c).ctx.getStore sid = c.getStore sid := by
  unfold ctx_cached_property.get
  cases inst? with
  | none => rfl
  | some inst =>
    cases hs : c.slot with
    | none =>
      cases hf : p.func inst.state with
      | mk r s2 => cases r <;> simp [hf, hs]
    | some a =>
      have hne : sid ≠ a := fun he => h (by rw [hs, he])
      cases hl : storeLookup (c.getStore a) (calc_cache_key p inst) with
      | none =>
        cases hf : p.func inst.state with
        | mk r s2 =>
          cases r <;> simp [hl, hf, hs, Ctx.getStore_putStore_ne _ _ _ _ hne]
      | some v => simp [hl, hs]

/-! ### Interpreter invariants -/

theorem exec_slot_eq {σ V ε : Type} (cmd : Cmd σ V ε) (s : WState σ V ε) :
    (exec cmd s).2.ctx.slot = s.ctx.slot := by
  induction cmd generalizing s with
  | skip => rfl
  | throwE e => rfl
  | seq a b iha ihb =>
    show (exec (Cmd.seq a b) s).2.ctx.slot = s.ctx.slot
    unfold exec
    cases h : exec a s with
    | mk r s1 =>
      cases r with
      | none =>
        have h1 : s1.ctx.slot = s.ctx.slot := by
          have := iha s
          rwa [h] at this
        rw [← h1]
        exact ihb s1
      | some e =>
        have := iha s
        rwa [h] at this
  | read p objId =>
    show (exec (Cmd.read p objId) s).2.ctx.slot = s.ctx.slot
    unfold exec
    cases hi : assocFind? s.insts objId with
    | none => rfl
    | some st =>
      cases hr : (p.get (some ⟨objId, st⟩) s.ctx).res <;>
        simp [hr, get_slot_eq]
  | scope body ih =>
    show (exec (Cmd.scope body) s).2.ctx.slot = s.ctx.slot
    unfold exec
    rfl

theorem exec_nextId_mono {σ V ε : Type} (cmd : Cmd σ V ε) (s : WState σ V ε) :
    s.ctx.nextId ≤ (exec cmd s).2.ctx.nextId := by
  induction cmd generalizing s with
  | skip => exact Nat.le_refl _
  | throwE e => exact Nat.le_refl _
  | seq a b iha ihb =>
    show s.ctx.nextId ≤ (exec (Cmd.seq a b) s).2.ctx.nextId
    unfold exec
    cases h : exec a s with
    | mk r s1 =>
      have ha := iha s
      rw [h] at ha
      cases r with
      | none => exact Nat.le_trans ha (ihb s1)
      | some e => exact ha
  | read p objId =>
    show s.ctx.nextId ≤ (exec (Cmd.read p objId) s).2.ctx.nextId
    unfold exec
    cases hi : assocFind? s.insts objId with
    | none => exact Nat.le_refl _
    | some st =>
      cases hr : (p.get (some ⟨objId, st⟩) s.ctx).res <;>
        simp [hr, get_nextId_eq]
  | scope body ih =>
    show s.ctx.nextId ≤ (exec (Cmd.scope body) s).2.ctx.nextId
    unfold exec
    have := ih (scopeEnter s)
    have h2 : (scopeEnter s).ctx.nextId = s.ctx.nextId + 1 := rfl
    rw [h2] at this
    exact Nat.le_trans (Nat.le_succ _) this

theorem exec_store_frame {σ V ε : Type} (cmd : Cmd σ V ε) (s : WState σ V ε)
    (sid : Nat) (hlt : sid < s.ctx.nextId) (hact : s.ctx.slot ≠ some sid) :
    (exec cmd s).2.ctx.getStore sid = s.ctx.getStore sid := by
  induction cmd generalizing s with
  | skip => rfl
  | throwE e => rfl
  | seq a b iha ihb =>
    show (exec (Cmd.seq a b) s).2.ctx.getStore sid = s.ctx.getStore sid
    unfold exec
    cases h : exec a s with
    | mk r s1 =>
      have ha := iha s hlt hact
      rw [h] at ha
      cases r with
      | none =>
        have hn := exec_nextId_mono a s
        rw [h] at hn
        have hs := exec_slot_eq a s
        rw [h] at hs
        have := ihb s1 (Nat.lt_of_lt_of_le hlt hn) (by rw [hs]; exact hact)
        rw [this]
        exact ha
      | some e => exact ha
  | read p objId =>
    show (exec (Cmd.read p objId) s).2.ctx.getStore sid = s.ctx.getStore sid
    unfold exec
    cases hi : assocFind? s.insts objId with
    | none => rfl
    | some st =>
      cases hr : (p.get (some ⟨objId, st⟩) s.ctx).res <;>
        simp [hr, get_store_frame _ _ _ _ hact]
  | scope body ih =>
    show (exec (Cmd.scope body) s).2.ctx.getStore sid = s.ctx.getStore sid
    unfold exec
    have h1 : (scopeEnter s).ctx.slot = some s.ctx.nextId := rfl
    have h2 : (scopeEnter s).ctx.nextId = s.ctx.nextId + 1 := rfl
    have hne : some s.ctx.nextId ≠ some sid := by
      intro h
      injection h with h4
      omega
    have := ih (scopeEnter s) (h2 ▸ Nat.lt_succ_of_lt hlt) (h1 ▸ hne)
    have h3 : (scopeEnter s).ctx.getStore sid = s.ctx.getStore sid := by
      have hns : ¬ s.ctx.nextId = sid := by
        intro hh
        exact hne (by rw [hh])
      simp [scopeEnter, Ctx.getStore, assocFind?, hns]
    rw [← h3, ← this]
    rfl

theorem exec_WF {σ V ε : Type} (cmd : Cmd σ V ε) (s : WState σ V ε)
    (h : s.ctx.WF) : (exec cmd s).2.ctx.WF := by
  induction cmd generalizing s with
  | skip => exact h
  | throwE e => exact h
  | seq a b iha ihb =>
    show (exec (Cmd.seq a b) s).2.ctx.WF
    unfold exec
    cases hx : exec a s with
    | mk r s1 =>
      have ha := iha s h
      rw [hx] at ha
      cases r with
      | none => exact ihb s1 ha
      | some e => exact ha
  | read p objId =>
    show (exec (Cmd.read p objId) s).2.ctx.WF
    unfold exec
    cases hi : assocFind? s.insts objId with
    | none => exact h
    | some st =>
      have hwf : (p.get (some ⟨objId, st⟩) s.ctx).ctx.WF := by
        constructor
        · intro q hq
          rw [get_nextId_eq]
          revert hq
          unfold ctx_cached_property.get
          cases hs : s.ctx.slot with
          | none =>
            cases hf : p.func st with
            | mk r s2 =>
              cases r <;> simp [hf] <;> intro hq <;> exact h.1 q hq
          | some sid =>
            have hsid : sid < s.ctx.nextId := h.2 sid hs
            cases hl : storeLookup (s.ctx.getStore sid) (calc_cache_key p ⟨objId, st⟩) with
            | some v => simp [hl]; intro hq; exact h.1 q hq
            | none =>
              cases hf : p.func st with
              | mk r s2 =>
                cases r with
                | error e => simp [hl, hf]; intro hq; exact h.1 q hq
                | ok v =>
                  simp [hl, hf, Ctx.putStore]
                  intro hq
                  rcases assocSet_keys_sub _ _ _ q hq with h1 | h1
                  · rw [h1]; exact hsid
                  · exact h.1 q h1
        · intro sid hsid
          rw [get_nextId_eq]
          rw [get_slot_eq] at hsid
          exact h.2 sid hsid
      cases hr : (p.get (some ⟨objId, st⟩) s.ctx).res <;> simp [hr] <;> exact hwf
  | scope body ih =>
    show (exec (Cmd.scope body) s).2.ctx.WF
    unfold exec
    have h1 : (scopeEnter s).ctx.WF := by
      constructor
      · intro q hq
        have hq2 : q ∈ (s.ctx.nextId, ([] : CacheStore V)) :: s.ctx.stores := hq
        show q.1 < s.ctx.nextId + 1
        rw [List.mem_cons] at hq2
        rcases hq2 with h2 | h2
        · rw [h2]; exact Nat.lt_succ_self _
        · exact Nat.lt_succ_of_lt (h.1 q h2)
      · intro sid hsid
        have hx : s.ctx.nextId = sid := by
          simpa [scopeEnter] using hsid
        show sid < s.ctx.nextId + 1
        omega
    have h2 := ih (scopeEnter s) h1
    constructor
    · intro q hq
      exact h2.1 q hq
    · intro sid hsid
      have hs : sid ∈ s.ctx.slot := hsid
      have hn := exec_nextId_mono body (scopeEnter s)
      have h3 : (scopeEnter s).ctx.nextId = s.ctx.nextId + 1 := rfl
      rw [h3] at hn
      exact Nat.lt_of_lt_of_le (h.2 sid hs) (Nat.le_trans (Nat.le_succ _) hn)

/-! ### Decimal rendering: injectivity and absence of the separator

`calc_cache_key` renders the two identities in decimal with `" "` between
them.  Decimal digit strings contain no space, so the rendering of the
pair is injective. -/

theorem digitChar_ne_space : ∀ d, d < 10 → Nat.digitChar d ≠ ' ' := by decide

theorem digitChar_inj_lt :
    ∀ d1, d1 < 10 → ∀ d2, d2 < 10 → Nat.digitChar d1 = Nat.digitChar d2 → d1 = d2 := by
  decide

theorem toDigitsCore_eq_digits (fuel n : Nat) (acc : List Char) (hn : 0 < n)
    (hfuel : n ≤ fuel) :
    Nat.toDigitsCore 10 fuel n acc =
      ((Nat.digits 10 n).map Nat.digitChar).reverse ++ acc := by
  induction fuel generalizing n acc with
  | zero => omega
  | succ f ih =>
    have hdig := Nat.digits_def' (b := 10) (by norm_num) hn
    by_cases h10 : n / 10 = 0
    · have : Nat.toDigitsCore 10 (f + 1) n acc = Nat.digitChar (n % 10) :: acc := by
        simp [Nat.toDigitsCore, h10]
      rw [this, hdig, h10]
      simp
    · have hlt : n / 10 < n := Nat.div_lt_self hn (by norm_num)
      have hstep : Nat.toDigitsCore 10 (f + 1) n acc =
          Nat.toDigitsCore 10 f (n / 10) (Nat.digitChar (n % 10) :: acc) := by
        simp [Nat.toDigitsCore, h10]
      rw [hstep, ih (n / 10) _ (Nat.pos_of_ne_zero h10) (by omega), hdig]
      simp

/-- The digit sequence (most significant first) that `Nat.repr` renders. -/
def reprDigits (n : Nat) : List Nat :=
  if n = 0 then [0] else (Nat.digits 10 n).reverse

theorem toDigits_eq_reprDigits (n : Nat) :
    Nat.toDigits 10 n = (reprDigits n).map Nat.digitChar := by
  by_cases h : n = 0
  · subst h
    decide
  · unfold Nat.toDigits
    rw [toDigitsCore_eq_digits (n + 1) n [] (Nat.pos_of_ne_zero h) (by omega)]
    simp [reprDigits, h]

theorem reprDigits_lt_ten (n : Nat) : ∀ d ∈ reprDigits n, d < 10 := by
  intro d hd
  unfold reprDigits at hd
  by_cases h : n = 0
  · simp [h] at hd
    omega
  · rw [if_neg h, List.mem_reverse] at hd
    exact Nat.digits_lt_base (by norm_num) hd

theorem reprDigits_inj (a b : Nat) (h : reprDigits a = reprDigits b) : a = b := by
  unfold reprDigits at h
  by_cases ha : a = 0 <;> by_cases hb : b = 0
  · rw [ha, hb]
  · rw [if_pos ha, if_neg hb] at h
    have h2 : Nat.digits 10 b = [0] := by
      have := congrArg List.reverse h
      simpa using this.symm
    have h3 : b = Nat.ofDigits 10 (Nat.digits 10 b) := (Nat.ofDigits_digits 10 b).symm
    rw [h2] at h3
    simp [Nat.ofDigits] at h3
    exact absurd h3 hb
  · rw [if_neg ha, if_pos hb] at h
    have h2 : Nat.digits 10 a = [0] := by
      have := congrArg List.reverse h
      simpa using this
    have h3 : a = Nat.ofDigits 10 (Nat.digits 10 a) := (Nat.ofDigits_digits 10 a).symm
    rw [h2] at h3
    simp [Nat.ofDigits] at h3
    exact absurd h3 ha
  · rw [if_neg ha, if_neg hb] at h
    have h2 : Nat.digits 10 a = Nat.digits 10 b := by
      have := congrArg List.reverse h
      simpa using this
    exact Nat.digits_inj_iff.mp h2

theorem map_digitChar_inj :
    ∀ (l1 l2 : List Nat), (∀ d ∈ l1, d < 10) → (∀ d ∈ l2, d < 10) →
      l1.map Nat.digitChar = l2.map Nat.digitChar → l1 = l2 := by
  intro l1
  induction l1 with
  | nil =>
    intro l2 _ _ h
    cases l2 with
    | nil => rfl
    | cons d l => simp at h
  | cons d1 t1 ih =>
    intro l2 h1 h2 h
    cases l2 with
    | nil => simp at h
    | cons d2 t2 =>
      simp only [List.map_cons, List.cons.injEq] at h
      have hd : d1 = d2 :=
        digitChar_inj_lt d1 (h1 d1 (List.mem_cons_self _ _)) d2
          (h2 d2 (List.mem_cons_self _ _)) h.1
      have ht : t1 = t2 :=
        ih t2 (fun d hd2 => h1 d (List.mem_cons_of_mem _ hd2))
          (fun d hd2 => h2 d (List.mem_cons_of_mem _ hd2)) h.2
      rw [hd, ht]

theorem repr_data_eq (n : Nat) : (Nat.repr n).data = Nat.toDigits 10 n := rfl

theorem nat_repr_inj (a b : Nat) (h : Nat.repr a = Nat.repr b) : a = b := by
  have hd : Nat.toDigits 10 a = Nat.toDigits 10 b := by
    rw [← repr_data_eq, ← repr_data_eq, h]
  rw [toDigits_eq_reprDigits, toDigits_eq_reprDigits] at hd
  exact reprDigits_inj a b
    (map_digitChar_inj _ _ (reprDigits_lt_ten a) (reprDigits_lt_ten b) hd)

theorem repr_no_space (n : Nat) : ' ' ∉ (Nat.repr n).data := by
  rw [repr_data_eq, toDigits_eq_reprDigits]
  intro hmem
  rw [List.mem_map] at hmem
  obtain ⟨d, hd, hchar⟩ := hmem
  exact digitChar_ne_space d (reprDigits_lt_ten n d hd) hchar

theorem sep_append_inj (l1 l2 l3 l4 : List Char) (h1 : ' ' ∉ l1) (h3 : ' ' ∉ l3)
    (h : l1 ++ ' ' :: l2 = l3 ++ ' ' :: l4) : l1 = l3 ∧ l2 = l4 := by
  induction l1 generalizing l3 with
  | nil =>
    cases l3 with
    | nil => simpa using h
    | cons c t3 =>
      simp only [List.nil_append, List.cons_append, List.cons.injEq] at h
      exact absurd (by rw [h.1]; exact List.mem_cons_self _ _) h3
  | cons c t1 ih =>
    cases l3 with
    | nil =>
      simp only [List.nil_append, List.cons_append, List.cons.injEq] at h
      exact absurd (by rw [← h.1]; exact List.mem_cons_self _ _) h1
    | cons c3 t3 =>
      simp only [List.cons_append, List.cons.injEq] at h
      have ht := ih t3 (fun hm => h1 (List.mem_cons_of_mem _ hm))
        (fun hm => h3 (List.mem_cons_of_mem _ hm)) h.2
      exact ⟨by rw [h.1, ht.1], ht.2⟩

theorem string_append_data (s t : String) : (s ++ t).data = s.data ++ t.data := rfl

theorem calc_cache_key_data {σ V ε : Type} (p : ctx_cached_property σ V ε)
    (inst : Inst σ) :
    (calc_cache_key p inst).data =
      (Nat.repr inst.objId).data ++ ' ' :: (Nat.repr p.funcId).data := by
  unfold calc_cache_key
  rw [string_append_data, string_append_data]
  have hsp : (" " : String).data = [' '] := rfl
  rw [hsp]
  simp

theorem calc_cache_key_inj {σ V ε : Type} (p1 p2 : ctx_cached_property σ V ε)
    (i1 i2 : Inst σ)
    (h : calc_cache_key p1 i1 = calc_cache_key p2 i2) :
    i1.objId = i2.objId ∧ p1.funcId = p2.funcId := by
  have hd := congrArg String.data h
  rw [calc_cache_key_data, calc_cache_key_data] at hd
  have := sep_append_inj _ _ _ _ (repr_no_space i1.objId) (repr_no_space i2.objId) hd
  constructor
  · exact nat_repr_inj _ _ (String.ext this.1)
  · exact nat_repr_inj _ _ (String.ext this.2)

/-! ### Characterizations of a single `__get__` call -/

theorem putStore_slot {V : Type} (c : Ctx V) (sid : Nat) (st : CacheStore V) :
    (c.putStore sid st).slot = c.slot := rfl

theorem get_fresh_eq {σ V ε : Type} (p : ctx_cached_property σ V ε)
    (inst : Inst σ) (c : Ctx V) (sid : Nat) (v : V) (s2 : σ)
    (hslot : c.slot = some sid)
    (hmiss : storeLookup (c.getStore sid) (calc_cache_key p inst) = none)
    (hf : p.func inst.state = (Except.ok v, s2)) :
    p.get (some inst) c =
      ⟨GetRes.value v, some ⟨inst.objId, s2⟩,
        c.putStore sid ((calc_cache_key p inst, v) :: c.getStore sid), [], true⟩ := by
  unfold ctx_cached_property.get
  rw [hslot]
  simp [hmiss, hf]

theorem get_cached_eq {σ V ε : Type} (p : ctx_cached_property σ V ε)
    (inst : Inst σ) (c : Ctx V) (sid : Nat) (v : V)
    (hslot : c.slot = some sid)
    (hhit : storeLookup (c.getStore sid) (calc_cache_key p inst) = some v) :
    p.get (some inst) c = ⟨GetRes.value v, some inst, c, [], false⟩ := by
  unfold ctx_cached_property.get
  rw [hslot]
  simp [hhit]

/-! ### The claims -/

/-- C1: for every block of work run under `under_ctx`, the prior
`cache_holder` state is restored on every exit path — the slot after the
block equals the slot before entry, whether the block completes normally or
an error propagates out of it, and the block's outcome (including any
error) is propagated unchanged to the caller.  Stated both for an arbitrary
state-transformer body and for every interpreted `with under_ctx()` block
(whose body may raise anywhere). -/
theorem under_ctx_restores_and_propagates {σ V ε : Type}
    (body : WState σ V ε → Option ε × WState σ V ε) (s : WState σ V ε)
    (cmd : Cmd σ V ε) :
    (under_ctx body s).2.ctx.slot = s.ctx.slot ∧
    (under_ctx body s).1 = (body (scopeEnter s)).1 ∧
    (exec (Cmd.scope cmd) s).2.ctx.slot = s.ctx.slot ∧
    (exec (Cmd.scope cmd) s).1 = (exec cmd (scopeEnter s)).1 :=
  ⟨rfl, rfl, rfl, rfl⟩

/-- C9: `__get__` with no instance (attribute read on the class itself)
returns the descriptor object itself: no value is computed, the wrapped
computation is not invoked (`fired = false`), no warning is printed, and
the ambient context (hence every cache store) is untouched. -/
theorem class_access_returns_descriptor {σ V ε : Type}
    (p : ctx_cached_property σ V ε) (c : Ctx V) :
    p.get none c = ⟨GetRes.asSelf p, none, c, [], false⟩ := rfl

/-- C10: a `__get__` call never changes which store `cache_holder` names
(the slot is preserved exactly, present or absent), leaves every store
other than the currently installed one untouched, and never removes or
overwrites an existing entry: every key/value binding visible before the
call is still visible, with the same value, after it. -/
theorem get_preserves_slot_and_entries {σ V ε : Type}
    (p : ctx_cached_property σ V ε) (inst? : Option (Inst σ)) (c : Ctx V) :
    (p.get inst? c).ctx.slot = c.slot ∧
    (∀ sid, c.slot ≠ some sid → (p.get inst? c).ctx.getStore sid = c.getStore sid) ∧
    ∀ sid k v, storeLookup (c.getStore sid) k = some v →
      storeLookup ((p.get inst? c).ctx.getStore sid) k = some v := by
  refine ⟨get_slot_eq p inst? c, fun sid h => get_store_frame p inst? c sid h, ?_⟩
  intro sid k v hk
  by_cases hcs : c.slot = some sid
  · cases inst? with
    | none => exact hk
    | some inst =>
      unfold ctx_cached_property.get
      rw [hcs]
      cases hl : storeLookup (c.getStore sid) (calc_cache_key p inst) with
      | some v0 => simp only [hl]; simpa using hk
      | none =>
        cases hf : p.func inst.state with
        | mk r s2 =>
          cases r with
          | error e => simp only [hl, hf]; simpa using hk
          | ok v0 =>
            simp only [hl, hf, Ctx.getStore_putStore_self]
            have hne : (calc_cache_key p inst) ≠ k := by
              intro he
              rw [he, hk] at hl
              exact Option.noConfusion hl
            rw [storeLookup_cons_ne _ _ _ _ hne]
            exact hk
  · rw [get_store_frame p inst? c sid hcs]
    exact hk

/-- C6: reading the attribute on an instance while no store is installed is
not an error: exactly one warning identifying the wrapped computation is
printed, the computation is invoked directly (`fired = true`), its result
is returned, nothing is cached (the ambient context is unchanged), and any
further scope-absent read — of any instance — invokes the computation
again. -/
theorem scope_absent_read_warns_and_recomputes {σ V ε : Type}
    (p : ctx_cached_property σ V ε) (inst : Inst σ) (c : Ctx V)
    (h : c.slot = none) :
    (p.get (some inst) c).warns = [warnMsg p.funcId] ∧
    (p.get (some inst) c).fired = true ∧
    (p.get (some inst) c).ctx = c ∧
    (∀ v s2, p.func inst.state = (Except.ok v, s2) →
      (p.get (some inst) c).res = GetRes.value v ∧
      (p.get (some inst) c).inst = some ⟨inst.objId, s2⟩) ∧
    ∀ inst2 : Inst σ, (p.get (some inst2) (p.get (some inst) c).ctx).fired = true := by
  have hctx : (p.get (some inst) c).ctx = c := by
    unfold ctx_cached_property.get
    rw [h]
    cases hf : p.func inst.state with
    | mk r s2 => cases r <;> simp [hf]
  refine ⟨?_, ?_, hctx, ?_, ?_⟩
  · unfold ctx_cached_property.get
    rw [h]
    cases hf : p.func inst.state with
    | mk r s2 => cases r <;> simp [hf]
  · unfold ctx_cached_property.get
    rw [h]
    cases hf : p.func inst.state with
    | mk r s2 => cases r <;> simp [hf]
  · intro v s2 hf
    unfold ctx_cached_property.get
    rw [h]
    simp [hf]
  · intro inst2
    rw [hctx]
    unfold ctx_cached_property.get
    rw [h]
    cases hf : p.func inst2.state with
    | mk r s2 => cases r <;> simp [hf]

/-- C8: if the wrapped computation raises during a read inside an active
scope, the error is the call's result, the ambient context — and hence the
active store — is unchanged (no entry is created for the key), and a
subsequent read of the same attribute on the same instance, in whatever
state the failure left it, invokes the computation again. -/
theorem computation_failure_not_cached {σ V ε : Type}
    (p : ctx_cached_property σ V ε) (inst : Inst σ) (c : Ctx V) (sid : Nat)
    (e : ε) (s2 : σ)
    (hslot : c.slot = some sid)
    (hmiss : storeLookup (c.getStore sid) (calc_cache_key p inst) = none)
    (hf : p.func inst.state = (Except.error e, s2)) :
    (p.get (some inst) c).res = GetRes.raised e ∧
    (p.get (some inst) c).ctx = c ∧
    (p.get (some inst) c).fired = true ∧
    ∀ st2 : σ, (p.get (some ⟨inst.objId, st2⟩) c).fired = true := by
  have hkey : ∀ st2 : σ, calc_cache_key p (⟨inst.objId, st2⟩ : Inst σ)
      = calc_cache_key p inst := fun _ => rfl
  refine ⟨?_, ?_, ?_, ?_⟩
  · unfold ctx_cached_property.get
    rw [hslot]
    simp [hmiss, hf]
  · unfold ctx_cached_property.get
    rw [hslot]
    simp [hmiss, hf]
  · unfold ctx_cached_property.get
    rw [hslot]
    simp [hmiss, hf]
  · intro st2
    unfold ctx_cached_property.get
    simp only [hslot]
    rw [hkey st2]
    simp only [hmiss]
    cases hf2 : p.func st2 with
    | mk r s3 => cases r <;> simp [hf2]

/-- C7: cache keys never collide — for two instances with distinct
identities the keys for one attribute differ, and for one instance the keys
for two attributes with distinct function identities differ; consequently a
value cached under one instance's (or attribute's) key is invisible to a
lookup for the other, so their cached values are independent. -/
theorem cache_keys_never_collide {σ V ε : Type} (p1 p2 : ctx_cached_property σ V ε)
    (i1 i2 : Inst σ) :
    (i1.objId ≠ i2.objId → calc_cache_key p1 i1 ≠ calc_cache_key p1 i2) ∧
    (p1.funcId ≠ p2.funcId → calc_cache_key p1 i1 ≠ calc_cache_key p2 i1) ∧
    ∀ (st : CacheStore V) (v : V),
      (i1.objId ≠ i2.objId →
        storeLookup ((calc_cache_key p1 i1, v) :: st) (calc_cache_key p1 i2)
          = storeLookup st (calc_cache_key p1 i2)) ∧
      (p1.funcId ≠ p2.funcId →
        storeLookup ((calc_cache_key p1 i1, v) :: st) (calc_cache_key p2 i1)
          = storeLookup st (calc_cache_key p2 i1)) := by
  have hobj : i1.objId ≠ i2.objId → calc_cache_key p1 i1 ≠ calc_cache_key p1 i2 :=
    fun hne he => hne (calc_cache_key_inj p1 p1 i1 i2 he).1
  have hfun : p1.funcId ≠ p2.funcId → calc_cache_key p1 i1 ≠ calc_cache_key p2 i1 :=
    fun hne he => hne (calc_cache_key_inj p1 p2 i1 i1 he).2
  refine ⟨hobj, hfun, fun st v => ⟨?_, ?_⟩⟩
  · intro hne
    exact storeLookup_cons_ne _ _ _ _ (hobj hne)
  · intro hne
    exact storeLookup_cons_ne _ _ _ _ (hfun hne)

/-! ### Reads at the interpreter level -/

theorem assocSet_id {α : Type} (l : List (Nat × α)) (k : Nat) (a : α)
    (h : assocFind? l k = some a) : assocSet l k a = l := by
  induction l with
  | nil => simp [assocFind?] at h
  | cons q rest ih =>
    obtain ⟨k0, a0⟩ := q
    by_cases hk : k0 = k
    · subst hk
      simp [assocFind?] at h
      simp [assocSet, h]
    · simp only [assocFind?, hk, if_false] at h
      simp [assocSet, hk, ih h]

theorem exec_read_cached {σ V ε : Type} (p : ctx_cached_property σ V ε)
    (objId : Nat) (s : WState σ V ε) (sid : Nat) (st : σ) (v : V)
    (hinst : assocFind? s.insts objId = some st)
    (hslot : s.ctx.slot = some sid)
    (hhit : storeLookup (s.ctx.getStore sid) (calc_cache_key p ⟨objId, st⟩) = some v) :
    exec (Cmd.read p objId) s = (none, { s with vals := s.vals ++ [v] }) := by
  have hg := get_cached_eq p ⟨objId, st⟩ s.ctx sid v hslot hhit
  show (match assocFind? s.insts objId with
    | none => (none, s)
    | some st =>
      let o := p.get (some ⟨objId, st⟩) s.ctx
      let insts2 := match o.inst with
        | some i2 => assocSet s.insts objId i2.state
        | none => s.insts
      let s1 : WState σ V ε :=
        { ctx := o.ctx
          insts := insts2
          warns := s.warns ++ o.warns
          log := s.log ++ (if o.fired then [(p.funcId, objId)] else [])
          vals := s.vals ++ (match o.res with | .value v => [v] | _ => []) }
      match o.res with
      | .raised e => (some e, s1)
      | _ => (none, s1)) = (none, { s with vals := s.vals ++ [v] })
  rw [hinst]
  simp only [hg]
  simp [assocSet_id _ _ _ hinst]

theorem exec_read_fresh {σ V ε : Type} (p : ctx_cached_property σ V ε)
    (objId : Nat) (s : WState σ V ε) (sid : Nat) (st0 st1 : σ) (v : V)
    (hinst : assocFind? s.insts objId = some st0)
    (hslot : s.ctx.slot = some sid)
    (hmiss : storeLookup (s.ctx.getStore sid) (calc_cache_key p ⟨objId, st0⟩) = none)
    (hf : p.func st0 = (Except.ok v, st1)) :
    exec (Cmd.read p objId) s =
      (none, { s with
        ctx := s.ctx.putStore sid
          ((calc_cache_key p (⟨objId, st0⟩ : Inst σ), v) :: s.ctx.getStore sid)
        insts := assocSet s.insts objId st1
        log := s.log ++ [(p.funcId, objId)]
        vals := s.vals ++ [v] }) := by
  have hg := get_fresh_eq p ⟨objId, st0⟩ s.ctx sid v st1 hslot hmiss hf
  show (match assocFind? s.insts objId with
    | none => (none, s)
    | some st =>
      let o := p.get (some ⟨objId, st⟩) s.ctx
      let insts2 := match o.inst with
        | some i2 => assocSet s.insts objId i2.state
        | none => s.insts
      let s1 : WState σ V ε :=
        { ctx := o.ctx
          insts := insts2
          warns := s.warns ++ o.warns
          log := s.log ++ (if o.fired then [(p.funcId, objId)] else [])
          vals := s.vals ++ (match o.res with | .value v => [v] | _ => []) }
      match o.res with
      | .raised e => (some e, s1)
      | _ => (none, s1)) = _
  rw [hinst]
  simp only [hg]
  simp

/-- A block of `n` consecutive reads of the same attribute on the same
instance. -/
def manyReads {σ V ε : Type} (p : ctx_cached_property σ V ε) (objId : Nat) :
    Nat → Cmd σ V ε
  | 0 => Cmd.skip
  | n + 1 => Cmd.seq (Cmd.read p objId) (manyReads p objId n)

theorem exec_manyReads_cached {σ V ε : Type} (p : ctx_cached_property σ V ε)
    (objId : Nat) (n : Nat) :
    ∀ (s : WState σ V ε) (sid : Nat) (st : σ) (v : V),
      assocFind? s.insts objId = some st →
      s.ctx.slot = some sid →
      storeLookup (s.ctx.getStore sid) (calc_cache_key p ⟨objId, st⟩) = some v →
      exec (manyReads p objId n) s =
        (none, { s with vals := s.vals ++ List.replicate n v }) := by
  induction n with
  | zero =>
    intro s sid st v h1 h2 h3
    show (none, s) = _
    simp
  | succ m ih =>
    intro s sid st v h1 h2 h3
    show (match exec (Cmd.read p objId) s with
      | (none, s1) => exec (manyReads p objId m) s1
      | (some e, s1) => (some e, s1)) = _
    rw [exec_read_cached p objId s sid st v h1 h2 h3]
    show exec (manyReads p objId m) { s with vals := s.vals ++ [v] } = _
    rw [ih { s with vals := s.vals ++ [v] } sid st v h1 h2 h3]
    simp [List.replicate_succ]

/-- C2: inside one scope, a block of `1 + n` reads of one lazy attribute on
one instance invokes the wrapped computation exactly once — the invocation
log grows by exactly one entry, for the first read — while every read
(first and subsequent) returns the identical value `v`, and no warning is
printed. -/
theorem cached_reads_compute_once {σ V ε : Type}
    (p : ctx_cached_property σ V ε) (objId : Nat) (s : WState σ V ε)
    (st0 st1 : σ) (v : V) (n : Nat)
    (hinst : assocFind? s.insts objId = some st0)
    (hf : p.func st0 = (Except.ok v, st1)) :
    (exec (Cmd.scope (Cmd.seq (Cmd.read p objId) (manyReads p objId n))) s).1 = none ∧
    (exec (Cmd.scope (Cmd.seq (Cmd.read p objId) (manyReads p objId n))) s).2.log
      = s.log ++ [(p.funcId, objId)] ∧
    (exec (Cmd.scope (Cmd.seq (Cmd.read p objId) (manyReads p objId n))) s).2.vals
      = s.vals ++ v :: List.replicate n v ∧
    (exec (Cmd.scope (Cmd.seq (Cmd.read p objId) (manyReads p objId n))) s).2.warns
      = s.warns := by
  set s1 := scopeEnter s with hs1
  have hinst1 : assocFind? s1.insts objId = some st0 := hinst
  have hslot1 : s1.ctx.slot = some s.ctx.nextId := rfl
  have hstore1 : s1.ctx.getStore s.ctx.nextId = [] := by
    simp [hs1, scopeEnter, Ctx.getStore, assocFind?]
  have hmiss1 : storeLookup (s1.ctx.getStore s.ctx.nextId)
      (calc_cache_key p ⟨objId, st0⟩) = none := by
    rw [hstore1]; rfl
  have hread := exec_read_fresh p objId s1 s.ctx.nextId st0 st1 v hinst1 hslot1 hmiss1 hf
  set s2 : WState σ V ε :=
    { s1 with
      ctx := s1.ctx.putStore s.ctx.nextId
        ((calc_cache_key p (⟨objId, st0⟩ : Inst σ), v) :: s1.ctx.getStore s.ctx.nextId)
      insts := assocSet s1.insts objId st1
      log := s1.log ++ [(p.funcId, objId)]
      vals := s1.vals ++ [v] } with hs2
  have hinst2 : assocFind? s2.insts objId = some st1 := assocFind?_set_self _ _ _
  have hslot2 : s2.ctx.slot = some s.ctx.nextId := hslot1
  have hhit2 : storeLookup (s2.ctx.getStore s.ctx.nextId)
      (calc_cache_key p ⟨objId, st1⟩) = some v := by
    have hk : calc_cache_key p (⟨objId, st1⟩ : Inst σ)
        = calc_cache_key p (⟨objId, st0⟩ : Inst σ) := rfl
    have hgs : s2.ctx.getStore s.ctx.nextId
        = (calc_cache_key p (⟨objId, st0⟩ : Inst σ), v) :: s1.ctx.getStore s.ctx.nextId :=
      Ctx.getStore_putStore_self _ _ _
    rw [hk, hgs]
    exact storeLookup_cons_self _ _ _
  have hmany := exec_manyReads_cached p objId n s2 s.ctx.nextId st1 v hinst2 hslot2 hhit2
  have hbody : exec (Cmd.seq (Cmd.read p objId) (manyReads p objId n)) s1
      = (none, { s2 with vals := s2.vals ++ List.replicate n v }) := by
    show (match exec (Cmd.read p objId) s1 with
      | (none, s1) => exec (manyReads p objId n) s1
      | (some e, s1) => (some e, s1)) = _
    rw [hread]
    show exec (manyReads p objId n) s2 = _
    rw [hmany]
  have hscope : exec (Cmd.scope (Cmd.seq (Cmd.read p objId) (manyReads p objId n))) s
      = ((exec (Cmd.seq (Cmd.read p objId) (manyReads p objId n)) s1).1,
        { (exec (Cmd.seq (Cmd.read p objId) (manyReads p objId n)) s1).2 with
          ctx := { (exec (Cmd.seq (Cmd.read p objId) (manyReads p objId n)) s1).2.ctx with
            slot := s.ctx.slot } }) := rfl
  rw [hscope, hbody]
  refine ⟨rfl, rfl, ?_, rfl⟩
  show (s1.vals ++ [v]) ++ List.replicate n v = s.vals ++ v :: List.replicate n v
  have : s1.vals = s.vals := rfl
  rw [this, List.append_assoc]
  rfl

/-- C4: every entry to `under_ctx` installs a newly created, empty cache
store: the slot then names the store with the fresh identity, that store is
empty, the fresh identity differs from every existing store's identity (so
no value can be shared with any earlier scope), `under_ctx` factors through
exactly this installation, and interpretation preserves the identity
discipline, so the same holds at every later scope entry. -/
theorem scope_installs_fresh_empty_store {σ V ε : Type} (s : WState σ V ε)
    (body : WState σ V ε → Option ε × WState σ V ε) (cmd : Cmd σ V ε)
    (hwf : s.ctx.WF) :
    (scopeEnter s).ctx.slot = some s.ctx.nextId ∧
    (scopeEnter s).ctx.getStore s.ctx.nextId = [] ∧
    (∀ q ∈ s.ctx.stores, q.1 ≠ s.ctx.nextId) ∧
    under_ctx body s =
      ((body (scopeEnter s)).1,
        { (body (scopeEnter s)).2 with
          ctx := { (body (scopeEnter s)).2.ctx with slot := s.ctx.slot } }) ∧
    (exec cmd s).2.ctx.WF := by
  refine ⟨rfl, ?_, ?_, rfl, exec_WF cmd s hwf⟩
  · simp [scopeEnter, Ctx.getStore, assocFind?]
  · intro q hq he
    have := hwf.1 q hq
    omega

/-- C5: running a nested `with under_ctx()` block leaves the outer scope's
store installed again afterwards, with exactly the entries it had before
the inner block was entered — nothing cached during the inner scope leaks
into the outer store — and this holds for every inner block, including ones
that exit by raising an error. -/
theorem nested_scope_preserves_outer_store {σ V ε : Type} (cmd : Cmd σ V ε)
    (s : WState σ V ε) (sid : Nat)
    (hslot : s.ctx.slot = some sid) (hlt : sid < s.ctx.nextId) :
    (exec (Cmd.scope cmd) s).2.ctx.slot = some sid ∧
    (exec (Cmd.scope cmd) s).2.ctx.getStore sid = s.ctx.getStore sid := by
  constructor
  · rw [exec_slot_eq]
    exact hslot
  · have h1 : (exec (Cmd.scope cmd) s).2.ctx.getStore sid
        = (exec cmd (scopeEnter s)).2.ctx.getStore sid := rfl
    have hne : (scopeEnter s).ctx.slot ≠ some sid := by
      show some s.ctx.nextId ≠ some sid
      intro h
      injection h with h2
      omega
    have hlt2 : sid < (scopeEnter s).ctx.nextId := Nat.lt_succ_of_lt hlt
    have h2 := exec_store_frame cmd (scopeEnter s) sid hlt2 hne
    have h3 : (scopeEnter s).ctx.getStore sid = s.ctx.getStore sid := by
      have hns : ¬ s.ctx.nextId = sid := by omega
      simp [scopeEnter, Ctx.getStore, assocFind?, hns]
    rw [h1, h2, h3]

/-! ### The demo (`main`) and concrete example inputs -/

/-- The demo property `Foo.bar`: increment `self._bar` and return it. -/
def barProp : ctx_cached_property Nat Nat Unit :=
  ⟨1, fun b => (Except.ok (b + 1), b + 1)⟩

/-- Initial demo state: one `Foo` instance (identity `0`) with `_bar = 0`;
no scope active; all traces empty. -/
def demoInit : WState Nat Nat Unit :=
  ⟨⟨none, [], 0⟩, [(0, 0)], [], [], []⟩

/-- The spec's end-to-end scenario: two reads of `foo.bar` inside one
`with under_ctx()` block, then two reads outside any scope. -/
def demoProg : Cmd Nat Nat Unit :=
  Cmd.seq (Cmd.scope (Cmd.seq (Cmd.read barProp 0) (Cmd.read barProp 0)))
    (Cmd.seq (Cmd.read barProp 0) (Cmd.read barProp 0))

/-- C3: with the counter at 0, the four reads of the scenario produce
1, 1 (cached), 2, 3 (each recomputed): the program completes without
error, the reads inside the scope emit no warning while the two
scope-absent reads each emit one, and the slot is again absent once the
scope has exited. -/
theorem demo_scenario :
    (exec demoProg demoInit).1 = none ∧
    (exec demoProg demoInit).2.vals = [1, 1, 2, 3] ∧
    (exec demoProg demoInit).2.warns = [warnMsg barProp.funcId, warnMsg barProp.funcId] ∧
    (exec (Cmd.scope (Cmd.seq (Cmd.read barProp 0) (Cmd.read barProp 0))) demoInit).2.ctx.slot
      = none := by
  refine ⟨rfl, ?_, ?_, rfl⟩ <;> rfl

/-- An ambient context with one installed empty store (identity `0`). -/
def ctxActive : Ctx Nat := ⟨some 0, [(0, [])], 1⟩

/-- An ambient context whose installed store (identity `0`) already holds
an unrelated entry, plus no other store. -/
def ctxWithEntry : Ctx Nat := ⟨some 0, [(0, [("k", 7)])], 1⟩

/-- A second descriptor with a different function identity. -/
def otherProp : ctx_cached_property Nat Nat Unit :=
  ⟨2, fun b => (Except.ok b, b)⟩

/-- A descriptor whose computation mutates the counter, then raises. -/
def failProp : ctx_cached_property Nat Nat Unit :=
  ⟨3, fun b => (Except.error (), b + 1)⟩

/-- A whole-program state inside one active scope (store `0` installed and
empty), with the demo instance present. -/
def stateActive : WState Nat Nat Unit :=
  ⟨ctxActive, [(0, 0)], [], [], []⟩

/-! ### Witnesses -/

/-- Witness for C2: the block `with under_ctx(): foo.bar; foo.bar` run from
the demo state invokes the computation once and yields the value 1 twice. -/
theorem cached_reads_compute_once_w :
    (exec (Cmd.scope (Cmd.seq (Cmd.read barProp 0) (manyReads barProp 0 1))) demoInit).1
      = none ∧
    (exec (Cmd.scope (Cmd.seq (Cmd.read barProp 0) (manyReads barProp 0 1))) demoInit).2.log
      = demoInit.log ++ [(barProp.funcId, 0)] ∧
    (exec (Cmd.scope (Cmd.seq (Cmd.read barProp 0) (manyReads barProp 0 1))) demoInit).2.vals
      = demoInit.vals ++ 1 :: List.replicate 1 1 ∧
    (exec (Cmd.scope (Cmd.seq (Cmd.read barProp 0) (manyReads barProp 0 1))) demoInit).2.warns
      = demoInit.warns :=
  cached_reads_compute_once barProp 0 demoInit 0 1 1 1 rfl rfl

/-- Witness for C4: from the demo state (well-formed), scope entry installs
the fresh empty store `0`, distinct from every existing store. -/
theorem scope_installs_fresh_empty_store_w :
    (scopeEnter demoInit).ctx.slot = some demoInit.ctx.nextId ∧
    (scopeEnter demoInit).ctx.getStore demoInit.ctx.nextId = [] ∧
    (∀ q ∈ demoInit.ctx.stores, q.1 ≠ demoInit.ctx.nextId) ∧
    under_ctx (fun s => (none, s)) demoInit =
      (((fun s => ((none : Option Unit), s)) (scopeEnter demoInit)).1,
        { ((fun s => ((none : Option Unit), s)) (scopeEnter demoInit)).2 with
          ctx := { ((fun s => ((none : Option Unit), s)) (scopeEnter demoInit)).2.ctx with
            slot := demoInit.ctx.slot } }) ∧
    (exec Cmd.skip demoInit).2.ctx.WF :=
  scope_installs_fresh_empty_store demoInit (fun s => (none, s)) Cmd.skip
    ⟨by simp [demoInit], by simp [demoInit]⟩

/-- Witness for C5: an inner scope whose body raises still leaves the outer
store `0` installed and unchanged. -/
theorem nested_scope_preserves_outer_store_w :
    (exec (Cmd.scope (Cmd.throwE ())) stateActive).2.ctx.slot = some 0 ∧
    (exec (Cmd.scope (Cmd.throwE ())) stateActive).2.ctx.getStore 0
      = stateActive.ctx.getStore 0 :=
  nested_scope_preserves_outer_store (Cmd.throwE ()) stateActive 0 rfl (by decide)

/-- Witness for C6: reading `foo.bar` with no store installed warns once,
invokes the computation, returns 1, and caches nothing. -/
theorem scope_absent_read_warns_and_recomputes_w :
    (barProp.get (some ⟨0, 0⟩) ⟨none, [], 0⟩).warns = [warnMsg barProp.funcId] ∧
    (barProp.get (some ⟨0, 0⟩) ⟨none, [], 0⟩).fired = true ∧
    (barProp.get (some ⟨0, 0⟩) ⟨none, [], 0⟩).ctx = ⟨none, [], 0⟩ ∧
    (∀ v s2, barProp.func 0 = (Except.ok v, s2) →
      (barProp.get (some ⟨0, 0⟩) ⟨none, [], 0⟩).res = GetRes.value v ∧
      (barProp.get (some ⟨0, 0⟩) ⟨none, [], 0⟩).inst = some ⟨0, s2⟩) ∧
    ∀ inst2 : Inst Nat,
      (barProp.get (some inst2) (barProp.get (some ⟨0, 0⟩) ⟨none, [], 0⟩).ctx).fired
        = true :=
  scope_absent_read_warns_and_recomputes barProp ⟨0, 0⟩ ⟨none, [], 0⟩ rfl

/-- Witness for C7: the keys of two instances with identities 0 and 1, and
of two attributes with function identities 1 and 2, differ, and a value
cached under one key does not answer the other's lookup. -/
theorem cache_keys_never_collide_w :
    calc_cache_key barProp (⟨0, 0⟩ : Inst Nat) ≠ calc_cache_key barProp (⟨1, 0⟩ : Inst Nat) ∧
    calc_cache_key barProp (⟨0, 0⟩ : Inst Nat) ≠ calc_cache_key otherProp (⟨0, 0⟩ : Inst Nat) ∧
    storeLookup ((calc_cache_key barProp (⟨0, 0⟩ : Inst Nat), 5) :: [])
        (calc_cache_key barProp (⟨1, 0⟩ : Inst Nat))
      = storeLookup [] (calc_cache_key barProp (⟨1, 0⟩ : Inst Nat)) :=
  have h := cache_keys_never_collide (V := Nat) barProp otherProp ⟨0, 0⟩ ⟨1, 0⟩
  ⟨h.1 (by decide), h.2.1 (by decide), (h.2.2 [] 5).1 (by decide)⟩

/-- Witness for C8: inside an active scope, a computation that raises
leaves the context unchanged and the next read fires again. -/
theorem computation_failure_not_cached_w :
    (failProp.get (some ⟨0, 0⟩) ctxActive).res = GetRes.raised () ∧
    (failProp.get (some ⟨0, 0⟩) ctxActive).ctx = ctxActive ∧
    (failProp.get (some ⟨0, 0⟩) ctxActive).fired = true ∧
    ∀ st2 : Nat, (failProp.get (some ⟨0, st2⟩) ctxActive).fired = true :=
  computation_failure_not_cached failProp ⟨0, 0⟩ ctxActive 0 () 1 rfl rfl rfl

/-- Witness for C10: a read that caches a fresh value preserves the slot,
leaves the uninstalled store `5` untouched, and keeps the pre-existing
entry of the active store visible with its value. -/
theorem get_preserves_slot_and_entries_w :
    (barProp.get (some ⟨0, 0⟩) ctxWithEntry).ctx.slot = ctxWithEntry.slot ∧
    (barProp.get (some ⟨0, 0⟩) ctxWithEntry).ctx.getStore 5 = ctxWithEntry.getStore 5 ∧
    storeLookup ((barProp.get (some ⟨0, 0⟩) ctxWithEntry).ctx.getStore 0) "k" = some 7 :=
  have h := get_preserves_slot_and_entries barProp (some ⟨0, 0⟩) ctxWithEntry
  ⟨h.1, h.2.1 5 (by decide), h.2.2 0 "k" 7 (by decide)⟩

end CtxCache
